import Mathlib

/-! Real-time-embedded-system-TP1: the search routines and the queue consumers.

A shallow embedding of `binary_search.c` and `ipsa_sched.c`.

* C `int` variables (`i`, `taille`, `compteur`, the array elements) are integers of
  `Int`; `/` on `int` is C's truncating division, `Int.tdiv`.  In the runs that end,
  `taille` and `compteur` stay at or below the length of the array (the theorems
  give their final values), far inside the range of a 32-bit `int`.  In the run of
  consumer 4 that never ends, `compteur` is the number of iterations plus 2: the
  model lets it grow, where a 32-bit `int` would overflow after `2^31` iterations
  without the loop having been left.
* A C array is a `List Int`; reading `a[k]` is `readAt a k`, which has no value when
  `k` is outside the array.
* A `while` loop is a function of a fuel, the number of iterations it may still take.
-/

namespace TP1

/-! ## The array and the state of a search loop -/

/-- Reading `a[k]` in a C array `a`: the element when `0 ≤ k < length`, and no value
for an index outside the array. -/
def readAt (a : List Int) (k : Int) : Option Int :=
  if 0 ≤ k then a[k.toNat]? else none

/-- The local variables of a search loop: the value last read `i`, the probe index
`taille`, the iteration counter `compteur`.  `reads` is a ghost field: the indices
the run has read the array at, oldest first. -/
structure SearchState where
  i : Int
  taille : Int
  compteur : Int
  reads : List Int
  deriving DecidableEq, Repr

/-- How a run of a search ends. -/
inductive Outcome where
  /-- The loop condition `i != target` became false: the loop was left in this state. -/
  | finished (s : SearchState)
  /-- The run read the array at index `k`, outside the array. -/
  | outOfBounds (k : Int)
  /-- The loop condition still held in state `s` when the fuel ran out. -/
  | outOfFuel (s : SearchState)
  deriving DecidableEq, Repr

/-! ## binary_search.c -/

/-- Size of a pointer in bytes: `sizeof(a)` for the parameter `int a[]`. -/
def sizeofPtr : Int := 8

/-- Size of an `int` in bytes: `sizeof(a[0])`. -/
def sizeofInt : Int := 4

/-- The `while (i != b)` loop of `binary_search`, lines 9-21.  Both branches read
`a[taille]` into `i` and then move `taille` by `taille / compteur`, up when
`i <= a[taille]` and down otherwise. -/
def binary_search_loop (a : List Int) (b : Int) : Nat → SearchState → Outcome
  | 0, s => if s.i = b then .finished s else .outOfFuel s
  | fuel + 1, s =>
    if s.i = b then .finished s
    else
      match readAt a s.taille with
      | none => .outOfBounds s.taille
      | some v =>
        if s.i ≤ v then
          binary_search_loop a b fuel
            { i := v
              taille := s.taille + s.taille.tdiv s.compteur
              compteur := s.compteur + 1
              reads := s.reads ++ [s.taille] }
        else
          binary_search_loop a b fuel
            { i := v
              taille := s.taille - s.taille.tdiv s.compteur
              compteur := s.compteur + 1
              reads := s.reads ++ [s.taille] }

/-- The function `binary_search(a, b)`: `i = a[0]`, `taille = sizeof(a)/sizeof(a[0])/2`,
`compteur = 1`, then the loop.  `finished s` is `return i` with `i = s.i`. -/
def binary_search (a : List Int) (b : Int) (fuel : Nat) : Outcome :=
  match readAt a 0 with
  | none => .outOfBounds 0
  | some v =>
    binary_search_loop a b fuel
      { i := v
        taille := (sizeofPtr.tdiv sizeofInt).tdiv 2
        compteur := 1
        reads := [0] }

/-- The array `y` of `main` in `binary_search.c`. -/
def main_y : List Int := [1, 5, 14, 50, 89, 99]

/-- The target `search_n` of `main` in `binary_search.c`. -/
def main_search_n : Int := 89

/-- The function `main` of `binary_search.c`: the line it prints, when the call of
`binary_search` returns. -/
def main (fuel : Nat) : Option String :=
  match binary_search main_y main_search_n fuel with
  | .finished s =>
    if s.i = main_search_n then some "On a trouvé le nombre !!\n"
    else some "On a pas trouvé...\n"
  | _ => none

/-- The `if`/`else` of `main`, lines 29-35, with the array `y` and the target
`search_n` as parameters: the line printed when `binary_search(y, search_n)` returns.
`main` is this body at `main_y` and `main_search_n`. -/
def main_body (y : List Int) (search_n : Int) (fuel : Nat) : Option String :=
  match binary_search y search_n fuel with
  | .finished s =>
    if s.i = search_n then some "On a trouvé le nombre !!\n"
    else some "On a pas trouvé...\n"
  | _ => none

/-- The indices `j + 1, ..., j + d` as C `int`s. -/
def indicesFrom (j d : Nat) : List Int := (List.range' (j + 1) d).map Int.ofNat

/-- The indices `0, ..., k` as C `int`s: what a scan that stops at index `k` reads. -/
def indicesUpTo (k : Nat) : List Int := [0] ++ indicesFrom 0 k

/-! ## ipsa_sched.c: constants and the console -/

/-- The number of items the queue can hold at once. -/
def mainQUEUE_LENGTH : Nat := 2

/-- The value the queue send task sends to the queue. -/
def mainVALUE_SENT_FROM_TASK : Nat := 100

/-- The value the software timer callback sends to the queue. -/
def mainVALUE_SENT_FROM_TIMER : Nat := 200

/-- An argument of a `console_print` call: an integer (`%d`, `%ld`) or a `double`
(`%2f`).  A `double` is modelled by the rational number the expression denotes in
exact arithmetic. -/
inductive Arg where
  | int (v : Int)
  | double (q : ℚ)
  deriving DecidableEq, Repr

/-- One call `console_print(fmt, args...)`. -/
structure Print where
  fmt : String
  args : List Arg
  deriving DecidableEq, Repr

/-! ## ipsa_sched.c: the consumer tasks

Each consumer is an endless loop of `xQueueReceive` followed by a branch on the value
received.  A consumer is modelled by one iteration of that loop after the receive: the
function of the received value `ulReceivedValue` to the `console_print` calls made. -/

/-- Consumer 1, `prvQueueReceiveTask`, lines 287-299. -/
def prvQueueReceiveTask (ulReceivedValue : Nat) : List Print :=
  if ulReceivedValue = mainVALUE_SENT_FROM_TASK then
    [⟨"Task 1 is working\n", []⟩]
  else if ulReceivedValue = mainVALUE_SENT_FROM_TIMER then
    [⟨"Everything is good !\n", []⟩]
  else
    [⟨"Unexpected message\n", []⟩]

/-- The expression `(temps_in_fh - 32) / 9.0 * 5.0` of consumer 2, line 332: the
subtraction is on `int`, the division and the product on `double`. -/
def temps_in_dg (temps_in_fh : Int) : ℚ :=
  ((temps_in_fh - 32 : Int) : ℚ) / 9 * 5

/-- Consumer 2, `prvQueueReceiveTask2`, lines 324-338.  `rand` is the value the call
`rand()` returns; `%` on `int` is C's truncating remainder. -/
def prvQueueReceiveTask2 (ulReceivedValue : Nat) (rand : Int) : List Print :=
  if ulReceivedValue = mainVALUE_SENT_FROM_TASK then
    [⟨"Task 2 is working\n", []⟩]
  else if ulReceivedValue = mainVALUE_SENT_FROM_TIMER then
    let temps_in_fh : Int := 32 + rand.tmod 50
    [⟨"température en Fahreneit : %d F, conversion en degrée :%2f°C\n",
      [.int temps_in_fh, .double (temps_in_dg temps_in_fh)]⟩]
  else
    [⟨"Unexpected message\n", []⟩]

/-- A value of type `long int`, 64-bit two's complement: the result of an arithmetic
operation is reduced modulo `2^64` into `[-2^63, 2^63)`. -/
def wrapLong (x : Int) : Int := (x + 2 ^ 63) % 2 ^ 64 - 2 ^ 63

/-- The local `long int a` of consumer 3, line 370. -/
def task3_a : Int := 519195165119

/-- The local `long int b` of consumer 3, line 371. -/
def task3_b : Int := 784816654984

/-- Consumer 3, `prvQueueReceiveTask3`, lines 364-377. -/
def prvQueueReceiveTask3 (ulReceivedValue : Nat) : List Print :=
  if ulReceivedValue = mainVALUE_SENT_FROM_TASK then
    [⟨"Task 3 is working\n", []⟩]
  else if ulReceivedValue = mainVALUE_SENT_FROM_TIMER then
    [⟨"a*b =%ld\n", [.int (wrapLong (task3_a * task3_b))]⟩]
  else
    [⟨"Unexpected message\n", []⟩]

/-- The array `y` of consumer 4, lines 409-410: the integers 1 to 50. -/
def task4_y : List Int :=
  [1, 2, 3, 4, 5, 6, 7, 8, 9, 10, 11, 12, 13, 14, 15, 16, 17, 18, 19, 20, 21, 22,
   23, 24, 25, 26, 27, 28, 29, 30, 31, 32, 33, 34, 35, 36, 37, 38, 39, 40, 41, 42, 43,
   44, 45, 46, 47, 48, 49, 50]

/-- The `while (i != search_n)` loop of consumer 4, lines 418-429: `taille` moves by
`taille / compteur`, up when `i < search_n` and down when `i > search_n`, and then
`y[taille]` is read into `i`. -/
def task4_loop (y : List Int) (search_n : Int) : Nat → SearchState → Outcome
  | 0, s => if s.i = search_n then .finished s else .outOfFuel s
  | fuel + 1, s =>
    if s.i = search_n then .finished s
    else if s.i < search_n then
      let taille := s.taille + s.taille.tdiv s.compteur
      match readAt y taille with
      | none => .outOfBounds taille
      | some v =>
        task4_loop y search_n fuel
          { i := v, taille := taille, compteur := s.compteur + 1,
            reads := s.reads ++ [taille] }
    else if s.i > search_n then
      let taille := s.taille - s.taille.tdiv s.compteur
      match readAt y taille with
      | none => .outOfBounds taille
      | some v =>
        task4_loop y search_n fuel
          { i := v, taille := taille, compteur := s.compteur + 1,
            reads := s.reads ++ [taille] }
    else task4_loop y search_n fuel s

/-- The search of consumer 4, lines 409-429, as a function of the target:
`taille = sizeof(y)/sizeof(y[0])/2`, `i = y[taille]`, `compteur = 2`, then the loop. -/
def task4_search (search_n : Int) (fuel : Nat) : Outcome :=
  let taille : Int := (((task4_y.length : Int) * sizeofInt).tdiv sizeofInt).tdiv 2
  match readAt task4_y taille with
  | none => .outOfBounds taille
  | some v =>
    task4_loop task4_y search_n fuel
      { i := v, taille := taille, compteur := 2, reads := [taille] }

/-- The target `search_n` of consumer 4, line 411. -/
def task4_search_n : Int := 10

/-- Consumer 4, `prvQueueReceiveTask4`, lines 402-436.  No value when the search does
not leave its loop: then the `console_print` of line 431 is not reached. -/
def prvQueueReceiveTask4 (ulReceivedValue : Nat) (fuel : Nat) : Option (List Print) :=
  if ulReceivedValue = mainVALUE_SENT_FROM_TASK then
    some [⟨"Task 4 is working\n", []⟩]
  else if ulReceivedValue = mainVALUE_SENT_FROM_TIMER then
    match task4_search task4_search_n fuel with
    | .finished s =>
      some [⟨"le nombre %d a été trouvé en %d itérations.\n",
        [.int s.i, .int (s.compteur - 1)]⟩]
    | _ => none
  else
    some [⟨"Unexpected message\n", []⟩]

/-! ## ipsa_sched.c: startup -/

/-- The task functions handed to `xTaskCreate`. -/
inductive TaskCode where
  | prvQueueReceiveTask
  | prvQueueReceiveTask2
  | prvQueueReceiveTask3
  | prvQueueReceiveTask4
  | prvQueueSendTask
  deriving DecidableEq, Repr

/-- The calls `ipsa_sched` makes into the FreeRTOS kernel.  A priority is counted in
levels above `tskIDLE_PRIORITY`, a timer period in milliseconds (the argument of
`pdMS_TO_TICKS`). -/
inductive Call where
  | xQueueCreate (uxQueueLength : Nat) (uxItemSize : Nat)
  | xTaskCreate (pxTaskCode : TaskCode) (pcName : String) (uxPriority : Nat)
  | xTimerCreate (pcTimerName : String) (periodMs : Nat) (uxAutoReload : Bool)
  | xTimerStart
  | vTaskStartScheduler
  deriving DecidableEq, Repr

/-- The function `ipsa_sched`, lines 143-212: the kernel calls it makes, in order,
before it enters its final `for( ; ; )`.  `xQueue` is what `xQueueCreate` returns and
`xTimer` what `xTimerCreate` returns, `none` standing for `NULL`. -/
def ipsa_sched (xQueue : Option Nat) (xTimer : Option Nat) : List Call :=
  [.xQueueCreate mainQUEUE_LENGTH 4] ++
    match xQueue with
    | none => []
    | some _ =>
      [ .xTaskCreate .prvQueueReceiveTask "Rx" 0,
        .xTaskCreate .prvQueueReceiveTask2 "Rx" 0,
        .xTaskCreate .prvQueueReceiveTask3 "Rx" 0,
        .xTaskCreate .prvQueueReceiveTask4 "Rx" 0,
        .xTaskCreate .prvQueueSendTask "TX" 1,
        .xTimerCreate "Timer" 2000 true ] ++
      (match xTimer with
        | none => []
        | some _ => [.xTimerStart]) ++
      [.vTaskStartScheduler]


/-! ## ipsa_sched.c: the shared queue, its senders and its receivers

The queue is a FreeRTOS object: `xQueueSend` and `xQueueReceive` are kernel functions
whose code is not among the sources.  The two operations are modelled from §3, §4.1 and
§5 of the specification, each as one atomic step; the producer, the timer callback and
the consumers that call them are taken from `ipsa_sched.c`.  An execution of the tasks
under the scheduler is an interleaving of these steps: a list of events. -/

/-- A message in the queue: the value sent, `tag`, and a ghost serial number `id`, the
rank of the message among those enqueued, which tells two messages of equal value
apart. -/
structure Message where
  id : Nat
  tag : Nat
  deriving DecidableEq, Repr

/-- The queue and the ghost history of an execution: `queue` holds the waiting
messages, oldest first; `sent` lists the messages enqueued so far, in order;
`delivered` lists the messages received so far, in order, each with the consumer
(0 to 3) that received it; `nextId` is the serial number of the next message. -/
structure QueueState where
  queue : List Message
  sent : List Message
  delivered : List (Fin 4 × Message)
  nextId : Nat
  deriving DecidableEq, Repr

/-- The state after `xQueueCreate`: an empty queue, nothing sent or delivered. -/
def QueueState.init : QueueState :=
  { queue := [], sent := [], delivered := [], nextId := 0 }

/-- Modelled from the spec: the kernel function `xQueueSend` with a block time of 0,
missing from the sources.  §4.1: `send(value, timeout)` pushes one message and, with
timeout 0, does not wait when the queue is full; §3: capacity 2, FIFO, never
overwrites; §7: on a full queue the message is dropped. -/
def xQueueSend (s : QueueState) (value : Nat) : QueueState :=
  if s.queue.length < mainQUEUE_LENGTH then
    { queue := s.queue ++ [⟨s.nextId, value⟩]
      sent := s.sent ++ [⟨s.nextId, value⟩]
      delivered := s.delivered
      nextId := s.nextId + 1 }
  else s

/-- Modelled from the spec: the kernel function `xQueueReceive` with an unbounded
wait, missing from the sources, called by consumer `c`.  §4.1: `receive` pops the
oldest message; on an empty queue the caller stays blocked, so the state is unchanged
and the consumer takes the step again later. -/
def xQueueReceive (s : QueueState) (c : Fin 4) : QueueState :=
  match s.queue with
  | [] => s
  | m :: rest =>
    { queue := rest
      sent := s.sent
      delivered := s.delivered ++ [(c, m)]
      nextId := s.nextId }

/-- One cycle of the producer `prvQueueSendTask`, line 239:
`xQueueSend( xQueue, &ulValueToSend, 0U )` with the value `mainVALUE_SENT_FROM_TASK`. -/
def prvQueueSendTask (s : QueueState) : QueueState :=
  xQueueSend s mainVALUE_SENT_FROM_TASK

/-- The timer callback `prvQueueSendTimerCallback`, line 259:
`xQueueSend( xQueue, &ulValueToSend, 0U )` with the value `mainVALUE_SENT_FROM_TIMER`. -/
def prvQueueSendTimerCallback (s : QueueState) : QueueState :=
  xQueueSend s mainVALUE_SENT_FROM_TIMER

/-- The steps the tasks take on the queue: a send of the producer, a send of the timer
callback, and the `xQueueReceive` of consumer `c` (lines 279, 316, 356 and 394 for
the consumers 0 to 3). -/
inductive Event where
  | producerSend
  | timerSend
  | receive (c : Fin 4)
  deriving DecidableEq, Repr

/-- The effect of one event on the queue. -/
def step (s : QueueState) : Event → QueueState
  | .producerSend => prvQueueSendTask s
  | .timerSend => prvQueueSendTimerCallback s
  | .receive c => xQueueReceive s c

/-- The state after an interleaving `es` of the tasks, started on the empty queue. -/
def run (es : List Event) : QueueState :=
  es.foldl step QueueState.init

/-- What holds of the queue after every interleaving: the messages enqueued are those
delivered followed by those waiting, at most `mainQUEUE_LENGTH` are waiting, and the
serial numbers of the messages enqueued are distinct and below `nextId`. -/
def QueueState.Invariant (s : QueueState) : Prop :=
  s.sent = s.delivered.map Prod.snd ++ s.queue ∧
  s.queue.length ≤ mainQUEUE_LENGTH ∧
  (s.sent.map Message.id).Nodup ∧
  ∀ m ∈ s.sent, m.id < s.nextId

/-! ## Lemmas on the array model -/

theorem readAt_natCast (a : List Int) (n : Nat) : readAt a (n : Int) = a[n]? := by
  simp [readAt]

theorem readAt_natCast_succ (a : List Int) (n : Nat) : readAt a ((n : Int) + 1) = a[n + 1]? := by
  have h : ((n : Int) + 1) = ((n + 1 : Nat) : Int) := by push_cast; rfl
  rw [h, readAt_natCast]

/-- In an ascending list, an earlier element is at most a later one. -/
theorem ascending_getElem? {a : List Int} (hasc : a.Sorted (· ≤ ·)) {j k : Nat} {v w : Int}
    (hjk : j ≤ k) (hv : a[j]? = some v) (hw : a[k]? = some w) : v ≤ w := by
  obtain ⟨hj, rfl⟩ := List.getElem?_eq_some.1 hv
  obtain ⟨hk, rfl⟩ := List.getElem?_eq_some.1 hw
  rcases Nat.eq_or_lt_of_le hjk with rfl | hlt
  · exact le_refl _
  · exact (List.pairwise_iff_get.1 hasc) ⟨j, hj⟩ ⟨k, hk⟩ hlt

/-- A loop whose condition is already false is left at once, whatever the fuel. -/
theorem binary_search_loop_done (a : List Int) (b : Int) (fuel : Nat) (s : SearchState)
    (h : s.i = b) : binary_search_loop a b fuel s = .finished s := by
  cases fuel <;> simp [binary_search_loop, h]

/-- One iteration of the loop of `binary_search` on an ascending step: from the state
reached at index `j` (`taille = compteur = j + 1`), reading `a[j+1] = w ≥ v` leads to
the state reached at index `j + 1`. -/
theorem binary_search_loop_step (a : List Int) (b : Int) (fuel j : Nat) (v w : Int)
    (rs : List Int) (hvb : v ≠ b) (hw : a[j + 1]? = some w) (hvw : v ≤ w) :
    binary_search_loop a b (fuel + 1) ⟨v, (j : Int) + 1, (j : Int) + 1, rs⟩ =
      binary_search_loop a b fuel
        ⟨w, ((j + 1 : Nat) : Int) + 1, ((j + 1 : Nat) : Int) + 1, rs ++ [(j : Int) + 1]⟩ := by
  have hne : ((j : Int) + 1) ≠ 0 := by omega
  simp only [binary_search_loop, if_neg hvb, readAt_natCast_succ, hw, if_pos hvw,
    Int.tdiv_self hne]
  push_cast
  rfl

/-- On an ascending array the loop of `binary_search` is a left-to-right scan: started
in the state reached at index `j`, with the target first met `d` elements further on
at index `k = j + d`, it is left after `d` iterations in the state reached at `k`,
having read exactly the indices `j + 1, ..., k`. -/
theorem binary_search_loop_scan (a : List Int) (b : Int) (hasc : a.Sorted (· ≤ ·)) (k : Nat)
    (hk : a[k]? = some b) (hfirst : ∀ j : Nat, j < k → a[j]? ≠ some b) :
    ∀ (d j : Nat) (v : Int) (fuel : Nat) (rs : List Int), j + d = k → a[j]? = some v →
      d ≤ fuel →
      binary_search_loop a b fuel ⟨v, (j : Int) + 1, (j : Int) + 1, rs⟩ =
        .finished ⟨b, (k : Int) + 1, (k : Int) + 1, rs ++ indicesFrom j d⟩ := by
  intro d
  induction d with
  | zero =>
    intro j v fuel rs hjk hv _
    have hjk' : j = k := by omega
    subst hjk'
    have hvb : v = b := by rw [hk] at hv; exact (Option.some.inj hv).symm
    subst hvb
    simpa [indicesFrom] using binary_search_loop_done a v fuel ⟨v, (j : Int) + 1, (j : Int) + 1, rs⟩ rfl
  | succ d ih =>
    intro j v fuel rs hjk hv hfuel
    have hvb : v ≠ b := fun h => hfirst j (by omega) (h ▸ hv)
    obtain ⟨hklt, _⟩ := List.getElem?_eq_some.1 hk
    have hj1 : j + 1 < a.length := by omega
    have hw : a[j + 1]? = some a[j + 1] := List.getElem?_eq_getElem hj1
    have hvw : v ≤ a[j + 1] := ascending_getElem? hasc (Nat.le_succ j) hv hw
    obtain ⟨fuel, rfl⟩ : ∃ f, fuel = f + 1 := ⟨fuel - 1, by omega⟩
    rw [binary_search_loop_step a b fuel j v _ rs hvb hw hvw,
      ih (j + 1) _ fuel _ (by omega) hw (by omega)]
    simp [indicesFrom, List.range'_succ]

theorem mem_indicesFrom {j d : Nat} {p : Int} (hp : p ∈ indicesFrom j d) :
    (j : Int) + 1 ≤ p ∧ p ≤ (j : Int) + d := by
  simp only [indicesFrom, List.mem_map, List.mem_range'_1] at hp
  obtain ⟨n, ⟨h1, h2⟩, rfl⟩ := hp
  constructor <;> simp only [Int.ofNat_eq_coe] <;> omega

theorem mem_indicesUpTo {k : Nat} {p : Int} (hp : p ∈ indicesUpTo k) : 0 ≤ p ∧ p ≤ (k : Int) := by
  simp only [indicesUpTo, List.mem_append, List.mem_singleton] at hp
  rcases hp with rfl | hp
  · omega
  · have := mem_indicesFrom hp
    omega

/-- The run of `binary_search` on an ascending array that holds the target, first at
index `k`: it returns after `k` iterations with `i = b` and `taille = compteur = k + 1`,
having read the indices `0, ..., k`. -/
theorem binary_search_scan (a : List Int) (b : Int) (hasc : a.Sorted (· ≤ ·)) (k : Nat)
    (hk : a[k]? = some b) (hfirst : ∀ j : Nat, j < k → a[j]? ≠ some b) (fuel : Nat)
    (hfuel : k ≤ fuel) :
    binary_search a b fuel = .finished ⟨b, (k : Int) + 1, (k : Int) + 1, indicesUpTo k⟩ := by
  obtain ⟨hklt, _⟩ := List.getElem?_eq_some.1 hk
  have h0 : a[0]? = some a[0] := List.getElem?_eq_getElem (by omega)
  have hr : readAt a 0 = some a[0] := by
    have := readAt_natCast a 0
    simpa [h0] using this
  have ht : (sizeofPtr.tdiv sizeofInt).tdiv 2 = ((0 : Nat) : Int) + 1 := by decide
  simp only [binary_search, hr, ht]
  exact binary_search_loop_scan a b hasc k hk hfirst k 0 _ fuel [0] (by omega) h0 hfuel

/-- The loop of `binary_search` on an ascending array without the target: started in
the state reached at index `j`, it scans the `d` elements that follow and then reads
`a[length]`, one past the end. -/
theorem binary_search_loop_absent (a : List Int) (b : Int) (hasc : a.Sorted (· ≤ ·))
    (hb : b ∉ a) :
    ∀ (d j : Nat) (v : Int) (fuel : Nat) (rs : List Int), j + d + 1 = a.length →
      a[j]? = some v → d + 1 ≤ fuel →
      binary_search_loop a b fuel ⟨v, (j : Int) + 1, (j : Int) + 1, rs⟩ =
        .outOfBounds a.length := by
  intro d
  induction d with
  | zero =>
    intro j v fuel rs hj hv hfuel
    have hvb : v ≠ b := fun h => hb (List.mem_iff_getElem?.2 ⟨j, h ▸ hv⟩)
    obtain ⟨fuel, rfl⟩ : ∃ f, fuel = f + 1 := ⟨fuel - 1, by omega⟩
    have hnone : a[j + 1]? = none := List.getElem?_eq_none (by omega)
    have hlen : ((j : Int) + 1) = (a.length : Int) := by omega
    simp only [binary_search_loop, if_neg hvb, readAt_natCast_succ, hnone]
    rw [hlen]
  | succ d ih =>
    intro j v fuel rs hj hv hfuel
    have hvb : v ≠ b := fun h => hb (List.mem_iff_getElem?.2 ⟨j, h ▸ hv⟩)
    have hj1 : j + 1 < a.length := by omega
    have hw : a[j + 1]? = some a[j + 1] := List.getElem?_eq_getElem hj1
    have hvw : v ≤ a[j + 1] := ascending_getElem? hasc (Nat.le_succ j) hv hw
    obtain ⟨fuel, rfl⟩ : ∃ f, fuel = f + 1 := ⟨fuel - 1, by omega⟩
    rw [binary_search_loop_step a b fuel j v _ rs hvb hw hvw]
    exact ih (j + 1) _ fuel _ (by omega) hw (by omega)

/-- Whenever the loop of `binary_search` is left, it is left with `i = b`. -/
theorem binary_search_loop_finished (a : List Int) (b : Int) :
    ∀ (fuel : Nat) (s t : SearchState), binary_search_loop a b fuel s = .finished t → t.i = b := by
  intro fuel
  induction fuel with
  | zero =>
    intro s t h
    by_cases hs : s.i = b
    · simp [binary_search_loop, hs] at h
      rw [← h]; exact hs
    · simp [binary_search_loop, hs] at h
  | succ fuel ih =>
    intro s t h
    by_cases hs : s.i = b
    · simp [binary_search_loop, hs] at h
      rw [← h]; exact hs
    · simp only [binary_search_loop, if_neg hs] at h
      split at h
      · exact absurd h (by simp)
      · split at h <;> exact ih _ _ h

/-! ## Claims on binary_search.c -/

/-- The first index at which a list holds a value it contains. -/
theorem exists_first_index {a : List Int} {b : Int} (hb : b ∈ a) :
    ∃ k : Nat, a[k]? = some b ∧ ∀ j : Nat, j < k → a[j]? ≠ some b := by
  have hex : ∃ k : Nat, a[k]? = some b := List.mem_iff_getElem?.1 hb
  exact ⟨Nat.find hex, Nat.find_spec hex, fun j hj => Nat.find_min hex hj⟩

/-- C1. On every ascending array `a` that holds the target `b` (so `a` is not empty),
`binary_search(a, b)` terminates and returns `b`: with a fuel of at least the length
of `a` the run leaves the loop in one state `s` with `i = b`, every index it read is
inside `a`, and `taille` and `compteur` end at or below the length of `a`. -/
theorem binary_search_present_returns_target (a : List Int) (b : Int)
    (hasc : a.Sorted (· ≤ ·)) (hb : b ∈ a) :
    ∃ s : SearchState,
      (∀ fuel, a.length ≤ fuel → binary_search a b fuel = .finished s) ∧
      s.i = b ∧
      (∀ p ∈ s.reads, 0 ≤ p ∧ p < (a.length : Int)) ∧
      s.taille ≤ (a.length : Int) ∧ s.compteur ≤ (a.length : Int) := by
  obtain ⟨k, hk, hfirst⟩ := exists_first_index hb
  obtain ⟨hklt, _⟩ := List.getElem?_eq_some.1 hk
  refine ⟨⟨b, (k : Int) + 1, (k : Int) + 1, indicesUpTo k⟩, ?_, rfl, ?_, ?_, ?_⟩
  · intro fuel hfuel
    exact binary_search_scan a b hasc k hk hfirst fuel (by omega)
  · intro p hp
    have := mem_indicesUpTo hp
    constructor <;> omega
  · show (k : Int) + 1 ≤ a.length
    omega
  · show (k : Int) + 1 ≤ a.length
    omega

/-- C1, at the array and target of `main`: `[1,5,14,50,89,99]` is ascending and holds
89, the call returns 89, and `main` prints the line for a number found. -/
theorem binary_search_present_returns_target_witness :
    main_y.Sorted (· ≤ ·) ∧ main_search_n ∈ main_y ∧
    (∃ s : SearchState,
      (∀ fuel, main_y.length ≤ fuel → binary_search main_y main_search_n fuel = .finished s) ∧
      s.i = main_search_n ∧
      (∀ p ∈ s.reads, 0 ≤ p ∧ p < (main_y.length : Int)) ∧
      s.taille ≤ (main_y.length : Int) ∧ s.compteur ≤ (main_y.length : Int)) ∧
    binary_search main_y main_search_n 6 = .finished ⟨89, 5, 5, [0, 1, 2, 3, 4]⟩ ∧
    main 6 = some "On a trouvé le nombre !!\n" :=
  ⟨by decide, by decide,
    binary_search_present_returns_target main_y main_search_n (by decide) (by decide),
    by decide, by decide⟩

/-- C2. On every ascending array `a` that does not hold the target `b`,
`binary_search(a, b)` returns no result at all: once it has scanned the array (a fuel
of at least the length of `a`) the run reads `a[length]`, outside the array. -/
theorem binary_search_absent_reads_past_end (a : List Int) (b : Int)
    (hasc : a.Sorted (· ≤ ·)) (hb : b ∉ a) (fuel : Nat) (hfuel : a.length ≤ fuel) :
    binary_search a b fuel = .outOfBounds a.length := by
  cases a with
  | nil => rfl
  | cons x xs =>
    have hr : readAt (x :: xs) 0 = some x := by simp [readAt]
    have ht : (sizeofPtr.tdiv sizeofInt).tdiv 2 = ((0 : Nat) : Int) + 1 := by decide
    simp only [binary_search, hr, ht]
    exact binary_search_loop_absent (x :: xs) b hasc hb xs.length 0 x fuel [0]
      (by simp) (by simp) (by simpa using hfuel)

/-- C2, at the array of `main` and the absent target 7: the run reads `a[6]`. -/
theorem binary_search_absent_reads_past_end_witness :
    main_y.Sorted (· ≤ ·) ∧ (7 : Int) ∉ main_y ∧ main_y.length ≤ 6 ∧
    binary_search main_y 7 6 = .outOfBounds 6 :=
  ⟨by decide, by decide, by decide,
    binary_search_absent_reads_past_end main_y 7 (by decide) (by decide) 6 (by decide)⟩

/-- C4. On an ascending array `a` whose first occurrence of the target `b` is at index
`k`, `binary_search(a, b)` leaves its loop after exactly `k` iterations: the count
`compteur - 1` at exit is `k`, the position of the target and not a logarithm of the
length. -/
theorem binary_search_iterations (a : List Int) (b : Int) (hasc : a.Sorted (· ≤ ·))
    (k : Nat) (hk : a[k]? = some b) (hfirst : ∀ j : Nat, j < k → a[j]? ≠ some b) (fuel : Nat)
    (hfuel : k ≤ fuel) :
    ∃ s : SearchState, binary_search a b fuel = .finished s ∧ s.i = b ∧
      s.compteur - 1 = (k : Int) := by
  refine ⟨_, binary_search_scan a b hasc k hk hfirst fuel hfuel, rfl, ?_⟩
  show (k : Int) + 1 - 1 = k
  omega

/-- C4, at the array of `main` and the target 99, first met at index 5: the loop takes
5 iterations, more than `ceil(log2 6) + 1 = 4`. -/
theorem binary_search_iterations_witness :
    main_y.Sorted (· ≤ ·) ∧ main_y[5]? = some 99 ∧ (∀ j : Nat, j < 5 → main_y[j]? ≠ some 99) ∧
    (∃ s : SearchState, binary_search main_y 99 5 = .finished s ∧ s.i = 99 ∧
      s.compteur - 1 = ((5 : Nat) : Int)) ∧
    ¬ (5 ≤ Nat.clog 2 main_y.length + 1) :=
  ⟨by decide, by decide, by decide,
    binary_search_iterations main_y 99 (by decide) 5 (by decide) (by decide) 5 (le_refl 5),
    by simp [main_y, Nat.clog]⟩

/-! ## Claims on ipsa_sched.c -/

/-- C3. When consumer 4 receives the timer value 200, its search of 10 in 1..50
terminates (any fuel of 2 or more is enough): it reads the indices 25, 13 and 9, all
inside 0..49, leaves the loop with `i = 10` and `compteur = 4`, and the consumer
prints the value 10 with the count `compteur - 1 = 3`, which is at most 6. -/
theorem task4_timer_search_finds_ten (fuel : Nat) :
    ∃ s : SearchState,
      task4_search task4_search_n (fuel + 2) = .finished s ∧
      s.i = 10 ∧ s.reads = [25, 13, 9] ∧
      (∀ p ∈ s.reads, 0 ≤ p ∧ p ≤ 49) ∧
      s.compteur - 1 = 3 ∧ s.compteur - 1 ≤ 6 ∧
      prvQueueReceiveTask4 mainVALUE_SENT_FROM_TIMER (fuel + 2) =
        some [⟨"le nombre %d a été trouvé en %d itérations.\n",
          [.int s.i, .int (s.compteur - 1)]⟩] := by
  have hrun : task4_search task4_search_n (fuel + 2) = .finished ⟨10, 9, 4, [25, 13, 9]⟩ := by
    cases fuel <;> rfl
  refine ⟨⟨10, 9, 4, [25, 13, 9]⟩, hrun, rfl, rfl, by decide, by decide, by decide, ?_⟩
  simp only [prvQueueReceiveTask4, hrun]
  decide

/-- The search of consumer 4, whatever the fuel, when the timer value arrives. -/
theorem prvQueueReceiveTask4_timer (fuel : Nat) :
    prvQueueReceiveTask4 200 (fuel + 2) =
      some [⟨"le nombre %d a été trouvé en %d itérations.\n", [.int 10, .int 3]⟩] := by
  have hrun : task4_search task4_search_n (fuel + 2) = .finished ⟨10, 9, 4, [25, 13, 9]⟩ := by
    cases fuel <;> rfl
  simp only [prvQueueReceiveTask4, hrun]
  decide

/-- C5. For every received value `v` exactly one of three cases holds, in each of the
four consumers alike: `v = 100` and consumer N prints "Task N is working"; `v = 200`
and each consumer performs its timer action (status line, temperature conversion,
product, search); `v` is neither and each consumer prints "Unexpected message" and
nothing else. -/
theorem consumers_dispatch (v : Nat) (rand : Int) (fuel : Nat) :
    (v = 100 ∧
      prvQueueReceiveTask v = [⟨"Task 1 is working\n", []⟩] ∧
      prvQueueReceiveTask2 v rand = [⟨"Task 2 is working\n", []⟩] ∧
      prvQueueReceiveTask3 v = [⟨"Task 3 is working\n", []⟩] ∧
      prvQueueReceiveTask4 v (fuel + 2) = some [⟨"Task 4 is working\n", []⟩]) ∨
    (v = 200 ∧
      prvQueueReceiveTask v = [⟨"Everything is good !\n", []⟩] ∧
      prvQueueReceiveTask2 v rand =
        [⟨"température en Fahreneit : %d F, conversion en degrée :%2f°C\n",
          [.int (32 + rand.tmod 50), .double (temps_in_dg (32 + rand.tmod 50))]⟩] ∧
      prvQueueReceiveTask3 v = [⟨"a*b =%ld\n", [.int (wrapLong (task3_a * task3_b))]⟩] ∧
      prvQueueReceiveTask4 v (fuel + 2) =
        some [⟨"le nombre %d a été trouvé en %d itérations.\n", [.int 10, .int 3]⟩]) ∨
    (v ≠ 100 ∧ v ≠ 200 ∧
      prvQueueReceiveTask v = [⟨"Unexpected message\n", []⟩] ∧
      prvQueueReceiveTask2 v rand = [⟨"Unexpected message\n", []⟩] ∧
      prvQueueReceiveTask3 v = [⟨"Unexpected message\n", []⟩] ∧
      prvQueueReceiveTask4 v (fuel + 2) = some [⟨"Unexpected message\n", []⟩]) := by
  by_cases h1 : v = 100
  · subst h1
    exact Or.inl ⟨rfl, by decide, by simp [prvQueueReceiveTask2, mainVALUE_SENT_FROM_TASK],
      by decide, by simp [prvQueueReceiveTask4, mainVALUE_SENT_FROM_TASK]⟩
  · by_cases h2 : v = 200
    · subst h2
      refine Or.inr (Or.inl ⟨rfl, by decide, ?_, ?_, prvQueueReceiveTask4_timer fuel⟩)
      · simp [prvQueueReceiveTask2, mainVALUE_SENT_FROM_TASK, mainVALUE_SENT_FROM_TIMER]
      · simp [prvQueueReceiveTask3, mainVALUE_SENT_FROM_TASK, mainVALUE_SENT_FROM_TIMER]
    · refine Or.inr (Or.inr ⟨h1, h2, ?_, ?_, ?_, ?_⟩) <;>
        simp [prvQueueReceiveTask, prvQueueReceiveTask2, prvQueueReceiveTask3,
          prvQueueReceiveTask4, mainVALUE_SENT_FROM_TASK, mainVALUE_SENT_FROM_TIMER, h1, h2]

/-- C6, as the code has it. `ipsa_sched` starts the scheduler exactly when the queue
was created, whether or not the timer was.  With no queue it makes no call after
`xQueueCreate`.  With the queue and the timer created it creates the five tasks and
the timer, starts the timer and then the scheduler.  With the queue created and no
timer it makes the same calls in the same order except `xTimerStart`, the only
call left out. -/
theorem ipsa_sched_scheduler_iff_queue (xQueue xTimer : Option Nat) (q t : Nat) :
    (Call.vTaskStartScheduler ∈ ipsa_sched xQueue xTimer ↔ xQueue ≠ none) ∧
    (Call.xTimerStart ∈ ipsa_sched xQueue xTimer ↔ xQueue ≠ none ∧ xTimer ≠ none) ∧
    ipsa_sched none xTimer = [.xQueueCreate 2 4] ∧
    ipsa_sched (some q) (some t) =
      [ .xQueueCreate 2 4,
        .xTaskCreate .prvQueueReceiveTask "Rx" 0,
        .xTaskCreate .prvQueueReceiveTask2 "Rx" 0,
        .xTaskCreate .prvQueueReceiveTask3 "Rx" 0,
        .xTaskCreate .prvQueueReceiveTask4 "Rx" 0,
        .xTaskCreate .prvQueueSendTask "TX" 1,
        .xTimerCreate "Timer" 2000 true,
        .xTimerStart,
        .vTaskStartScheduler ] ∧
    ipsa_sched (some q) none = (ipsa_sched (some q) (some t)).erase .xTimerStart ∧
    (ipsa_sched (some q) none).getLast? = some .vTaskStartScheduler := by
  refine ⟨?_, ?_, ?_, ?_, ?_, ?_⟩
  · cases xQueue <;> cases xTimer <;> simp [ipsa_sched]
  · cases xQueue <;> cases xTimer <;> simp [ipsa_sched]
  · rfl
  · rfl
  · show ipsa_sched (some 0) none = (ipsa_sched (some 0) (some 0)).erase .xTimerStart
    decide
  · rfl

/-- C6 as stated fails: with the queue created and `xTimerCreate` returning `NULL`,
`ipsa_sched` still calls `vTaskStartScheduler`. -/
theorem ipsa_sched_starts_scheduler_without_timer :
    Call.vTaskStartScheduler ∈ ipsa_sched (some 0) none ∧
    Call.xTimerStart ∉ ipsa_sched (some 0) none := by
  decide

/-- C7. The conversion of consumer 2, `(F - 32) / 9.0 * 5.0` in exact arithmetic, is
`(F - 32) * 5 / 9` for every integer `F`; 32 gives 0 and 212 gives 100. -/
theorem temps_in_dg_formula (F : Int) :
    temps_in_dg F = ((F : ℚ) - 32) * 5 / 9 ∧ temps_in_dg 32 = 0 ∧ temps_in_dg 212 = 100 := by
  refine ⟨?_, ?_, ?_⟩
  · simp only [temps_in_dg]
    push_cast
    ring
  · norm_num [temps_in_dg]
  · norm_num [temps_in_dg]

/-- C8. The value consumer 3 prints for `a*b` is 2882928388848657272, the product
reduced to 64 bits; the product of 519195165119 and 784816654984 is
407473012772559134303096, which no `long int` holds. -/
theorem task3_product_overflows :
    prvQueueReceiveTask3 mainVALUE_SENT_FROM_TIMER =
      [⟨"a*b =%ld\n", [.int 2882928388848657272]⟩] ∧
    task3_a * task3_b = 407473012772559134303096 ∧
    (2 : Int) ^ 63 ≤ task3_a * task3_b ∧
    wrapLong (task3_a * task3_b) ≠ task3_a * task3_b := by
  refine ⟨by decide, by decide, by decide, by decide⟩

/-- Once `taille` is 5 and `compteur` is above 5 with `i = y[5] = 6`, the loop of
consumer 4 searching 1 stays there: `taille / compteur` is 0. -/
theorem task4_loop_stall :
    ∀ (fuel : Nat) (c : Int) (rs : List Int), 5 < c →
      task4_loop task4_y 1 fuel ⟨6, 5, c, rs⟩ =
        .outOfFuel ⟨6, 5, c + fuel, rs ++ List.replicate fuel 5⟩ := by
  intro fuel
  induction fuel with
  | zero => intro c rs _; simp [task4_loop]
  | succ fuel ih =>
    intro c rs hc
    have hdiv : (5 : Int).tdiv c = 0 := Int.tdiv_eq_zero_of_lt (by decide) hc
    have hread : readAt task4_y 5 = some 6 := by decide
    have hstep : task4_loop task4_y 1 (fuel + 1) ⟨6, 5, c, rs⟩ =
        task4_loop task4_y 1 fuel ⟨6, 5, c + 1, rs ++ [5]⟩ := by
      simp [task4_loop, hdiv, hread]
    rw [hstep, ih (c + 1) (rs ++ [5]) (by omega)]
    simp only [List.replicate_succ, List.append_assoc, List.singleton_append, Nat.cast_add,
      Nat.cast_one]
    congr 2
    omega

/-- C10. The search loop of consumer 4 fails for a target present in 1..50: for the
target 1 the loop never ends, whatever the fuel (after `fuel` iterations it is still
running, with `compteur = fuel + 2`); from the fifth iteration on it sits at index 5,
where `y[5] = 6` and `taille / compteur = 0`.  For the target 46 it reads index 51,
outside 0..49. -/
theorem task4_search_fails_on_present_target :
    (∃ t : Int, t ∈ task4_y ∧ 1 ≤ t ∧ t ≤ 50 ∧
      ∀ fuel : Nat, ∃ s : SearchState, task4_search t fuel = .outOfFuel s ∧ s.i ≠ t ∧
        s.compteur = (fuel : Int) + 2 ∧
        (5 ≤ fuel → s.i = 6 ∧ s.taille = 5 ∧ s.taille.tdiv s.compteur = 0)) ∧
    (∃ t : Int, t ∈ task4_y ∧ 1 ≤ t ∧ t ≤ 50 ∧
      ∀ fuel : Nat, task4_search t (fuel + 5) = .outOfBounds 51) := by
  constructor
  · refine ⟨1, by decide, by decide, by decide, ?_⟩
    intro fuel
    by_cases hf : 5 ≤ fuel
    · obtain ⟨n, rfl⟩ : ∃ n, fuel = n + 5 := ⟨fuel - 5, by omega⟩
      have hrun : task4_search 1 (n + 5) =
          task4_loop task4_y 1 n ⟨6, 5, 7, [25, 13, 9, 7, 6, 5]⟩ := rfl
      rw [hrun, task4_loop_stall n 7 _ (by decide)]
      refine ⟨_, rfl, ?_, ?_, fun _ => ⟨rfl, rfl, ?_⟩⟩
      · show (6 : Int) ≠ 1
        decide
      · show (7 : Int) + (n : Int) = ((n + 5 : Nat) : Int) + 2
        push_cast
        omega
      · show (5 : Int).tdiv (7 + (n : Int)) = 0
        exact Int.tdiv_eq_zero_of_lt (by decide) (by omega)
    · have hlt : fuel < 5 := by omega
      interval_cases fuel
      · exact ⟨_, rfl, by decide, by decide, fun h => absurd h (by decide)⟩
      · exact ⟨_, rfl, by decide, by decide, fun h => absurd h (by decide)⟩
      · exact ⟨_, rfl, by decide, by decide, fun h => absurd h (by decide)⟩
      · exact ⟨_, rfl, by decide, by decide, fun h => absurd h (by decide)⟩
      · exact ⟨_, rfl, by decide, by decide, fun h => absurd h (by decide)⟩
  · refine ⟨46, by decide, by decide, by decide, ?_⟩
    intro fuel
    rfl

/-! ## The value `binary_search` returns -/

/-- C11. Whenever `binary_search(a, b)` returns, on any array `a` (ascending or not),
any target `b` and any fuel, the value returned is `b`.  So the `else` branch of
`main`, taken when the returned value differs from the target, is never reached: not
with the array and target of `main`, and not with any others put in their place. -/
theorem binary_search_returns_only_target (a : List Int) (b : Int) (fuel : Nat) :
    (∀ s : SearchState, binary_search a b fuel = .finished s → s.i = b) ∧
    main_body a b fuel ≠ some "On a pas trouvé...\n" ∧
    main fuel = main_body main_y main_search_n fuel ∧
    main fuel ≠ some "On a pas trouvé...\n" := by
  have hret : ∀ (x : List Int) (t : Int) (s : SearchState),
      binary_search x t fuel = .finished s → s.i = t := by
    intro x t s h
    simp only [binary_search] at h
    split at h
    · exact absurd h (by simp)
    · exact binary_search_loop_finished x t fuel _ s h
  have hbody : ∀ (x : List Int) (t : Int),
      main_body x t fuel ≠ some "On a pas trouvé...\n" := by
    intro x t
    simp only [main_body]
    split
    · next s hs => rw [if_pos (hret x t s hs)]; decide
    · simp
  exact ⟨hret a b, hbody a b, rfl, hbody main_y main_search_n⟩

/-- C11, at a run that does return: `binary_search([1,5,14,50,89,99], 89)` leaves its
loop with `i = 89`, the target, and `main` prints the line for a number found. -/
theorem binary_search_returns_only_target_witness :
    binary_search main_y 89 6 = .finished ⟨89, 5, 5, [0, 1, 2, 3, 4]⟩ ∧
    (⟨89, 5, 5, [0, 1, 2, 3, 4]⟩ : SearchState).i = 89 ∧
    main 6 = some "On a trouvé le nombre !!\n" :=
  ⟨by decide,
    (binary_search_returns_only_target main_y 89 6).1 ⟨89, 5, 5, [0, 1, 2, 3, 4]⟩ (by decide),
    by decide⟩

/-! ## The queue: each message is delivered once -/

theorem xQueueSend_invariant (s : QueueState) (value : Nat) (h : s.Invariant) :
    (xQueueSend s value).Invariant := by
  obtain ⟨hsent, hlen, hnodup, hid⟩ := h
  unfold xQueueSend
  split
  · next hroom =>
    refine ⟨?_, ?_, ?_, ?_⟩
    · simp [hsent]
    · simp only [List.length_append, List.length_singleton]
      omega
    · simp only [List.map_append, List.map_cons, List.map_nil]
      rw [List.nodup_append]
      refine ⟨hnodup, List.nodup_singleton _, ?_⟩
      intro x hx hx2
      simp only [List.mem_singleton] at hx2
      obtain ⟨m, hm, rfl⟩ := List.mem_map.1 hx
      have := hid m hm
      omega
    · intro m hm
      simp only [List.mem_append, List.mem_singleton] at hm
      rcases hm with hm | rfl
      · have := hid m hm
        show m.id < s.nextId + 1
        omega
      · show s.nextId < s.nextId + 1
        omega
  · exact ⟨hsent, hlen, hnodup, hid⟩

theorem xQueueReceive_invariant (s : QueueState) (c : Fin 4) (h : s.Invariant) :
    (xQueueReceive s c).Invariant := by
  obtain ⟨hsent, hlen, hnodup, hid⟩ := h
  unfold xQueueReceive
  split
  · exact ⟨hsent, hlen, hnodup, hid⟩
  · next m rest hq =>
    refine ⟨?_, ?_, hnodup, hid⟩
    · simp [hsent, hq]
    · rw [hq] at hlen
      simp only [List.length_cons] at hlen
      show rest.length ≤ mainQUEUE_LENGTH
      omega

theorem step_invariant (s : QueueState) (e : Event) (h : s.Invariant) :
    (step s e).Invariant := by
  cases e with
  | producerSend => exact xQueueSend_invariant s _ h
  | timerSend => exact xQueueSend_invariant s _ h
  | receive c => exact xQueueReceive_invariant s c h

theorem foldl_step_invariant (es : List Event) :
    ∀ s : QueueState, s.Invariant → (es.foldl step s).Invariant := by
  induction es with
  | nil => intro s h; exact h
  | cons e es ih => intro s h; exact ih (step s e) (step_invariant s e h)

theorem run_invariant (es : List Event) : (run es).Invariant :=
  foldl_step_invariant es QueueState.init
    ⟨rfl, by decide, List.nodup_nil, fun m hm => by cases hm⟩

/-- Two receives empty a queue that satisfies the invariant: afterwards the messages
delivered are exactly the messages enqueued. -/
theorem receive_twice_delivers_all (s : QueueState) (c d : Fin 4) (h : s.Invariant) :
    (xQueueReceive (xQueueReceive s c) d).delivered.map Prod.snd = s.sent ∧
    (xQueueReceive (xQueueReceive s c) d).queue = [] := by
  obtain ⟨hsent, hlen, -, -⟩ := h
  rcases hq : s.queue with _ | ⟨m1, _ | ⟨m2, _ | ⟨m3, rest⟩⟩⟩
  · simp [xQueueReceive, hq, hsent]
  · simp [xQueueReceive, hq, hsent]
  · simp [xQueueReceive, hq, hsent]
  · rw [hq] at hlen
    simp [mainQUEUE_LENGTH] at hlen

/-- C9. After every interleaving `es` of the producer, the timer callback and the four
consumers on the queue of capacity 2: the messages enqueued are, in order, those
delivered followed by those still waiting, and at most 2 are waiting (none is lost);
the messages enqueued are pairwise distinct and no message appears twice among those
delivered, so a message is never received by two consumers nor twice by one; and
once two more receives have been made, by any consumers `c` and `d`, every message
enqueued during `es` has been delivered. -/
theorem queue_delivers_each_message_once (es : List Event) :
    (run es).sent = (run es).delivered.map Prod.snd ++ (run es).queue ∧
    (run es).queue.length ≤ mainQUEUE_LENGTH ∧
    ((run es).sent.map Message.id).Nodup ∧
    ((run es).delivered.map Prod.snd).Nodup ∧
    (∀ (c d : Fin 4) (m : Message),
      (c, m) ∈ (run es).delivered → (d, m) ∈ (run es).delivered → c = d) ∧
    (∀ c d : Fin 4,
      (run (es ++ [.receive c, .receive d])).delivered.map Prod.snd = (run es).sent ∧
      (run (es ++ [.receive c, .receive d])).queue = []) := by
  have hinv := run_invariant es
  obtain ⟨hsent, hlen, hnodup, -⟩ := hinv
  have hsentnd : (run es).sent.Nodup := List.Nodup.of_map _ hnodup
  have hdel : ((run es).delivered.map Prod.snd).Nodup := by
    rw [hsent] at hsentnd
    exact (List.nodup_append.1 hsentnd).1
  refine ⟨hsent, hlen, hnodup, hdel, ?_, ?_⟩
  · intro c d m hc hd
    have hinj := List.inj_on_of_nodup_map hdel hc hd rfl
    exact congrArg Prod.fst hinj
  · intro c d
    have hrun : run (es ++ [.receive c, .receive d]) =
        xQueueReceive (xQueueReceive (run es) c) d := by
      simp [run, List.foldl_append, step]
    rw [hrun]
    exact receive_twice_delivers_all (run es) c d (run_invariant es)

end TP1
